import Mathlib

/-!
Verification development for the logfood agent frontend
(src/agent/agent_dev.py).

The first-party logic of the repository is embedded shallowly:

* `remove_file_references`, `apply_format_template` and the blank-line
  collapsing / stripping stage (source lines 43-82), over a small
  backtracking regular-expression engine with Python `re` semantics
  (leftmost match, left-biased alternation, greedy and lazy repetition,
  IGNORECASE as lowercase comparison).  Character classes follow the
  ASCII reading of the Python classes, which covers every string the
  repository manipulates.
* the delegation-tool name normalization and `build_domain_tools`
  (source lines 123-212), with the third-party agent constructors and
  UC toolkits abstracted as function parameters.
* `format_final_response` (source lines 337-353).
* the streaming adapter `predict_stream` and `predict` of
  `LazyLangGraphResponsesAgent` (source lines 391-483), as a fold over
  the list of `updates` events produced by the compiled graph (the
  stream is requested with a single stream mode, and each update event
  carries a single node, as produced by the outer two-node graph).
-/

namespace Logfood

/-! ## Python character classes (ASCII reading) -/

/-- Python whitespace class `\s` restricted to ASCII. -/
def isPySpace (c : Char) : Bool :=
  c == ' ' || c == '\t' || c == '\n' || c == '\r' || c == '\x0b' || c == '\x0c'

/-- Python word class `\w` restricted to ASCII. -/
def isPyWord (c : Char) : Bool :=
  c.isAlpha || c.isDigit || c == '_'

/-- The character class appearing in the file-name patterns of
`remove_file_references`: word characters plus hyphen, dot and slash. -/
def isFileChar (c : Char) : Bool :=
  isPyWord c || c == '-' || c == '.' || c == '/'

/-- Python `.` without DOTALL: any character except a newline. -/
def isDotChar (c : Char) : Bool :=
  c != '\n'

/-! ## A small regular-expression engine with Python `re` semantics -/

/-- Regular expressions as used by the patterns in the source: literals,
predicate character classes, concatenation, left-biased alternation,
greedy star, lazy star and greedy option. -/
inductive RE where
  | eps : RE
  | lit (c : Char) : RE
  | cls (p : Char → Bool) : RE
  | cat (a b : RE) : RE
  | alt (a b : RE) : RE
  | starG (r : RE) : RE
  | starL (r : RE) : RE
  | opt (r : RE) : RE

/-- Character comparison, lowercasing both sides when the IGNORECASE
flag is set (all source patterns use `re.IGNORECASE`). -/
def charEq (ci : Bool) (x c : Char) : Bool :=
  if ci then x.toLower == c.toLower else x == c

/-- Backtracking matcher in continuation-passing style.  The order of
the `orElse` branches realizes the preference order of the Python
engine: alternation is left-biased, `starG`/`opt` try the longer
continuation first, `starL` tries the empty repetition first.  `fuel`
bounds the depth of matcher-frame creation; callers supply enough fuel
for the bound never to be reached on the patterns of the source (each
repetition body consumes at least one character). -/
def matchCPS (ci : Bool) :
    Nat → RE → List Char → (List Char → Option (List Char)) → Option (List Char)
  | 0, _, _, _ => none
  | fuel+1, r, s, k =>
    match r with
    | .eps => k s
    | .lit c =>
      match s with
      | [] => none
      | x :: xs => if charEq ci x c then k xs else none
    | .cls p =>
      match s with
      | [] => none
      | x :: xs => if p x then k xs else none
    | .cat a b => matchCPS ci fuel a s (fun s1 => matchCPS ci fuel b s1 k)
    | .alt a b =>
      (matchCPS ci fuel a s k).orElse (fun _ => matchCPS ci fuel b s k)
    | .starG r1 =>
      (matchCPS ci fuel r1 s
        (fun s1 => matchCPS ci fuel (.starG r1) s1 k)).orElse (fun _ => k s)
    | .starL r1 =>
      (k s).orElse (fun _ =>
        matchCPS ci fuel r1 s (fun s1 => matchCPS ci fuel (.starL r1) s1 k))
    | .opt r1 =>
      (matchCPS ci fuel r1 s k).orElse (fun _ => k s)

/-- Structural size of a pattern, used to compute a sufficient fuel. -/
def reSize : RE → Nat
  | .eps => 1
  | .lit _ => 1
  | .cls _ => 1
  | .cat a b => reSize a + reSize b + 1
  | .alt a b => reSize a + reSize b + 1
  | .starG r => reSize r + 1
  | .starL r => reSize r + 1
  | .opt r => reSize r + 1

/-- Attempt to match `r` at the start of `s`; returns the suffix
remaining after the preferred match. -/
def tryMatch (ci : Bool) (r : RE) (s : List Char) : Option (List Char) :=
  matchCPS ci (s.length + reSize r + 2) r s (fun rest => some rest)

/-- Global substitution in the style of `re.sub`: scan left to right,
replace each leftmost non-overlapping match by `rep`.  A zero-width
match substitutes and advances one character, as in Python. -/
def subAllAux (ci : Bool) (r : RE) (rep : List Char) : Nat → List Char → List Char
  | 0, s => s
  | fuel+1, s =>
    match tryMatch ci r s with
    | some rest =>
      if rest.length = s.length then
        match s with
        | [] => rep
        | c :: cs => rep ++ c :: subAllAux ci r rep fuel cs
      else rep ++ subAllAux ci r rep fuel rest
    | none =>
      match s with
      | [] => []
      | c :: cs => c :: subAllAux ci r rep fuel cs

/-- Embedding of `re.sub(pattern, rep, s)`. -/
def subAll (ci : Bool) (r : RE) (rep : List Char) (s : List Char) : List Char :=
  subAllAux ci r rep (s.length + 1) s

/-- Whether the pattern matches at some position of the string
(`re.search` viewed as a Boolean). -/
def hasMatchFrom (ci : Bool) (r : RE) : List Char → Bool
  | [] => (tryMatch ci r []).isSome
  | c :: cs => (tryMatch ci r (c :: cs)).isSome || hasMatchFrom ci r cs

/-! ## The fifteen patterns of `remove_file_references` (source lines 52-68) -/

/-- Sequence a list of patterns. -/
def rcat (l : List RE) : RE := l.foldr RE.cat RE.eps

/-- Literal string pattern. -/
def rstr (s : String) : RE := rcat (s.data.map RE.lit)

/-- One-or-more repetition (greedy `+`). -/
def plus1 (r : RE) : RE := RE.cat r (RE.starG r)

/-- The file-name tail shared by most patterns:
a `+` over the file class, a literal dot, then a `+` over `\w`. -/
def fileNameRE : RE := rcat [plus1 (RE.cls isFileChar), RE.lit '.', plus1 (RE.cls isPyWord)]

/-- Lazy `.*?`. -/
def dotLazy : RE := RE.starL (RE.cls isDotChar)

/-- Source pattern 1 (line 53). -/
def pat0 : RE :=
  rcat [RE.lit 'I', RE.alt (rstr "'ve") (rstr " have"), rstr " saved",
        dotLazy, rstr "to ", fileNameRE]

/-- Source pattern 2 (line 54). -/
def pat1 : RE :=
  rcat [RE.lit 'I', RE.alt (rstr "'ll") (rstr " will"), rstr " save",
        dotLazy, rstr "to ", fileNameRE]

/-- Source pattern 3 (line 55). -/
def pat2 : RE :=
  rcat [rstr "Let me save", dotLazy, rstr "to ", fileNameRE]

/-- Source pattern 4 (line 56). -/
def pat3 : RE :=
  rcat [RE.lit 'I', RE.alt (rstr "'ve") (rstr " have"), rstr " written",
        dotLazy, rstr "to ", fileNameRE]

/-- Source pattern 5 (line 57). -/
def pat4 : RE :=
  rcat [rstr "Saved to ", fileNameRE]

/-- Source pattern 6 (line 58). -/
def pat5 : RE :=
  rcat [rstr "Writing to ", fileNameRE]

/-- Source pattern 7 (line 59). -/
def pat6 : RE :=
  rcat [RE.lit 'I', RE.alt (rstr "'ll") (rstr " will"), rstr " write",
        dotLazy, rstr "to ", fileNameRE]

/-- Source pattern 8 (line 60). -/
def pat7 : RE :=
  rcat [rstr "Saving", dotLazy, rstr "to ", fileNameRE]

/-- Source pattern 9 (line 61). -/
def pat8 : RE :=
  rcat [rstr "Reading from ", fileNameRE]

/-- Source pattern 10 (line 62). -/
def pat9 : RE :=
  rcat [RE.lit 'I', RE.alt (rstr "'ve") (rstr " have"), rstr " read",
        dotLazy, rstr "from ", fileNameRE]

/-- Source pattern 11 (line 63). -/
def pat10 : RE :=
  rcat [rstr "Let me read", dotLazy, rstr "from ", fileNameRE]

/-- Source pattern 12 (line 64). -/
def pat11 : RE :=
  rcat [rstr "The file ", fileNameRE, rstr " contains"]

/-- Source pattern 13 (line 65). -/
def pat12 : RE :=
  rcat [rstr "From ", fileNameRE, rstr ":"]

/-- Source pattern 14 (line 66). -/
def pat13 : RE :=
  rcat [RE.lit 'I', RE.alt (rstr "'ve") (rstr " have"), rstr " saved",
        dotLazy, rstr "to /large_tool_results/", plus1 (RE.cls isFileChar)]

/-- Source pattern 15 (line 67). -/
def pat14 : RE :=
  rcat [rstr "The ", RE.opt (rstr "full "), rstr "result", RE.opt (RE.lit 's'),
        rstr " ", RE.alt (rstr "were") (RE.alt (rstr "was") (rstr "has been")),
        rstr " ", RE.opt (rstr "automatically "),
        rstr "saved to /large_tool_results/", plus1 (RE.cls isFileChar)]

/-- The pattern list of `remove_file_references`, in source order. -/
def patterns : List RE :=
  [pat0, pat1, pat2, pat3, pat4, pat5, pat6, pat7, pat8, pat9, pat10,
   pat11, pat12, pat13, pat14]

/-- The blank-line collapsing pattern of source line 74. -/
def collapseRE : RE :=
  rcat [RE.lit '\n', RE.starG (RE.cls isPySpace), RE.lit '\n',
        RE.starG (RE.cls isPySpace), RE.lit '\n']

/-! ## `remove_file_references` (source lines 43-77) -/

/-- Apply the fifteen case-insensitive pattern substitutions in order,
each with the empty replacement. -/
def applyPatterns (l : List Char) : List Char :=
  patterns.foldl (fun acc p => subAll true p [] acc) l

/-- The blank-line collapsing substitution of source line 74. -/
def collapseBlankLines (l : List Char) : List Char :=
  subAll false collapseRE ['\n', '\n'] l

/-- Python `str.strip` over the ASCII whitespace class. -/
def pyStrip (l : List Char) : List Char :=
  ((l.dropWhile isPySpace).reverse.dropWhile isPySpace).reverse

/-- Embedding of `remove_file_references` (source lines 43-77): early
return on the empty string, the fifteen pattern substitutions, the
blank-line collapse, then the final strip. -/
def remove_file_references (s : String) : String :=
  if s = "" then s
  else ⟨pyStrip (collapseBlankLines (applyPatterns s.data))⟩

/-- The whitespace-normalization tail of `remove_file_references`
(source lines 74-75): collapse runs of blank lines, then strip. -/
def whitespace_normalize (s : String) : String :=
  ⟨pyStrip (collapseBlankLines s.data)⟩

/-- Whether `sub` occurs as a contiguous substring of `s`. -/
def containsSub (s sub : List Char) : Bool :=
  match s with
  | [] => sub.isEmpty
  | _ :: cs => sub.isPrefixOf s || containsSub cs sub

/-! ## Delegation-tool names (source lines 178 and 209) -/

/-- Embedding of Python `str.replace`: replace every non-overlapping
occurrence of `pat` (scanning left to right) by `rep`.  The guard on an
empty `pat` keeps the function total; the source only ever replaces
single characters. -/
def replaceList (pat rep : List Char) : Nat → List Char → List Char
  | 0, s => s
  | fuel+1, s =>
    if pat ≠ [] ∧ pat.isPrefixOf s then
      rep ++ replaceList pat rep fuel (s.drop pat.length)
    else
      match s with
      | [] => []
      | c :: cs => c :: replaceList pat rep fuel cs

/-- String-level wrapper for `replaceList`. -/
def pyReplace (s pat rep : String) : String :=
  ⟨replaceList pat.data rep.data (s.data.length + 1) s.data⟩

/-- The delegation-tool name computed on source lines 178 and 209:
`agent_config.name.replace(" ", "_").replace("-", "_")`. -/
def toolName (name : String) : String :=
  pyReplace (pyReplace name " " "_") "-" "_"

/-- Modelled from the spec: the tool-name normalization as the spec
words it, namely the display name with whitespace characters and
hyphens normalized to underscores.  Kept alongside `toolName` (the
source definition) for the refinement comparison of claim C5. -/
def specNormalizeName (name : String) : String :=
  ⟨name.data.map (fun c => if c.isWhitespace || c == '-' then '_' else c)⟩

/-! ## Messages, output items and the formatter node -/

/-- A LangChain tool call as consumed by `_langchain_to_responses`:
`arguments` holds the JSON encoding that `json.dumps` produces from the
call arguments. -/
structure ToolCall where
  callId : String
  name : String
  arguments : String
deriving DecidableEq, Repr

/-- A LangChain message as seen by the first-party code: its role tag
(`type`), its textual content, its optional identifier, its tool calls
(assistant messages) and its tool-call id (tool messages). -/
structure Msg where
  type : String
  content : String
  id : Option String
  tool_calls : List ToolCall
  tool_call_id : String
deriving DecidableEq, Repr

/-- Embedding of `apply_format_template` (source lines 80-82): returns
the stripped content, ignoring the state. -/
def apply_format_template (content : String) (_state : List Msg) : String :=
  ⟨pyStrip content.data⟩

/-- The in-place update performed by `format_final_response` on the
last assistant message, scanning from the right: the first message of
role `ai` gets its content cleaned when non-empty, every other message
is untouched. -/
def fmtRev (state : List Msg) : List Msg → List Msg
  | [] => []
  | m :: rest =>
    if m.type = "ai" then
      (if m.content ≠ "" then
        { m with content := apply_format_template (remove_file_references m.content) state }
      else m) :: rest
    else m :: fmtRev state rest

/-- Embedding of `format_final_response` (source lines 337-353): find
the last assistant message; when present with non-empty content,
replace its content by the cleaned and templated text; return the (in
Python, in-place mutated) message list. -/
def format_final_response (messages : List Msg) : List Msg :=
  (fmtRev messages messages.reverse).reverse

/-! ## The streaming adapter (source lines 391-483) -/

/-- An output item of the external Responses protocol.  `id := none`
stands for a freshly drawn `uuid4` (the code only generates a fresh id
when the source message has none, and for node-name announcements). -/
inductive Item where
  | text (text : String) (id : Option String) : Item
  | functionCall (id : Option String) (callId name arguments : String) : Item
  | functionCallOutput (callId output : String) : Item
deriving DecidableEq, Repr

/-- The id field carried by an output item (the source message id for
assistant-derived items). -/
def Item.itemId : Item → Option String
  | .text _ i => i
  | .functionCall i _ _ _ => i
  | .functionCallOutput _ _ => none

/-- Embedding of `_langchain_to_responses` (source lines 391-423):
an assistant message yields a text item when its content is non-empty
plus one function-call item per tool call; a tool message yields one
function-call-output item; every other role yields nothing. -/
def langchain_to_responses (m : Msg) : List Item :=
  if m.type = "ai" then
    (if m.content ≠ "" then [Item.text m.content m.id] else [])
      ++ m.tool_calls.map (fun tc => Item.functionCall m.id tc.callId tc.name tc.arguments)
  else if m.type = "tool" then
    [Item.functionCallOutput m.tool_call_id m.content]
  else []

/-- The state dictionary carried by one `updates` event of the compiled
graph: the message list, and the virtual-file mapping when the node
reports one (the formatter node reports only messages). -/
structure NodeData where
  messages : List Msg
  files : List (String × String)
deriving DecidableEq, Repr

/-- One `updates` event of `self.agent.stream(..., stream_mode=["updates"])`:
the originating node name and its state update. -/
structure UpdateEvent where
  node : String
  data : NodeData
deriving DecidableEq, Repr

/-- The synthetic node-name announcement emitted by `predict_stream`
(source lines 466-472); its uuid id is modelled as `none`. -/
def nameItem (node : String) : Item :=
  Item.text ("<name>" ++ node ++ "</name>") none

/-- The inner loop of `predict_stream` over one event's messages
(source lines 476-482): a message whose id is already in the seen set
is skipped; otherwise its id is added and its translation is emitted.
Returns the extended seen set, the list of message ids admitted past
the seen check (in order), and the emitted items. -/
def procMsgs (seen : List (Option String)) :
    List Msg → List (Option String) × List (Option String) × List Item
  | [] => (seen, [], [])
  | m :: ms =>
    if m.id ∈ seen then procMsgs seen ms
    else
      let r := procMsgs (m.id :: seen) ms
      (r.1, m.id :: r.2.1, langchain_to_responses m ++ r.2.2)

/-- The items yielded for one event, split as the code yields them:
first the optional node-name announcement, then the message items. -/
structure EventOut where
  announce : List Item
  msgItems : List Item
deriving DecidableEq, Repr

/-- The result of draining `predict_stream`: the per-event yields, the
final seen set, the sequence of translated message ids, and the last
retained event state (`self._final_state`). -/
structure RunResult where
  outs : List EventOut
  seen : List (Option String)
  processed : List (Option String)
  finalState : Option NodeData

/-- The event loop of `predict_stream` (source lines 455-483): the
`first_name` flag suppresses the announcement for the first event and
the announcement is dropped for the formatter node; each event then has
its new messages translated and becomes the retained final state. -/
def runEventsAux (first : Bool) (seen : List (Option String))
    (fs : Option NodeData) : List UpdateEvent → RunResult
  | [] => ⟨[], seen, [], fs⟩
  | ev :: rest =>
    let ann := if first = false ∧ ev.node ≠ "formatter" then [nameItem ev.node] else []
    let p := procMsgs seen ev.data.messages
    let r := runEventsAux false p.1 (some ev.data) rest
    ⟨⟨ann, p.2.2⟩ :: r.outs, r.seen, p.2.1 ++ r.processed, r.finalState⟩

/-- Embedding of one invocation of `predict_stream` on the list of
`updates` events produced by the compiled graph. -/
def predict_stream (stream : List UpdateEvent) : RunResult :=
  runEventsAux true [] none stream

/-- The flat sequence of output items yielded by `predict_stream`. -/
def streamItems (stream : List UpdateEvent) : List Item :=
  (predict_stream stream).outs.flatMap (fun e => e.announce ++ e.msgItems)

/-! ## `predict` (source lines 425-442) -/

/-- A value of the custom-outputs dictionary: either an opaque custom
input value or the virtual-file mapping. -/
inductive Val where
  | str (s : String) : Val
  | filesMap (m : List (String × String)) : Val
deriving DecidableEq, Repr

/-- Python dictionary update `\x7b**d, k: v\x7d`, extensionally: every
binding of `d` with a key other than `k`, plus `k` bound to `v`. -/
def dictUpdate (d : List (String × Val)) (k : String) (v : Val) :
    List (String × Val) :=
  d.filter (fun kv => kv.1 ≠ k) ++ [(k, v)]

/-- The virtual-file mapping extracted by `predict` from the retained
final state (`self._final_state.get("files", \x7b\x7d)`, empty when no
event was retained). -/
def predictFiles (stream : List UpdateEvent) : List (String × String) :=
  match (predict_stream stream).finalState with
  | some st => st.files
  | none => []

/-- The response assembled by `predict` (source lines 425-442): the
accumulated done items and the custom-outputs dictionary. -/
structure PredictResponse where
  output : List Item
  custom_outputs : List (String × Val)

/-- Embedding of `predict`: every streamed event has type
`response.output_item.done`, so the output list is the full item
sequence; the custom outputs echo the request's custom inputs updated
with the `files` binding. -/
def predict (customInputs : List (String × Val)) (stream : List UpdateEvent) :
    PredictResponse :=
  ⟨streamItems stream, dictUpdate customInputs "files" (Val.filesMap (predictFiles stream))⟩

/-! ## `build_domain_tools` (source lines 123-212) -/

/-- The Genie descriptor (source lines 99-103). -/
structure Genie where
  space_id : String
  name : String
  task : String
  description : String

/-- The served sub-agent descriptor (source lines 92-96). -/
structure ServedSubAgent where
  endpoint_name : String
  name : String
  task : String
  description : String

/-- The in-code sub-agent descriptor (source lines 106-109). -/
structure InCodeSubAgent where
  tools : List String
  name : String
  description : String

/-- A member of the `externally_served_agents` list
(`list[ServedSubAgent | Genie]`). -/
inductive ExternalAgent where
  | genie (g : Genie) : ExternalAgent
  | served (a : ServedSubAgent) : ExternalAgent

/-- A constructed LangChain tool: its externally visible name and its
invocation function. -/
structure ToolHandle where
  name : String
  run : String → String

/-- The delegation tool constructed for one external descriptor.  The
Python closures capture the per-iteration agent through default
arguments (`_agent=genie_agent`, `_agent=served_agent`), so each tool
is bound to the agent built from its own descriptor; `genieInvoke` and
`servedInvoke` abstract building the third-party agent from the
descriptor and invoking it on a question, returning the content of the
last message of the result. -/
def delegation_tool (genieInvoke : Genie → String → String)
    (servedInvoke : ServedSubAgent → String → String)
    (cfg : ExternalAgent) : ToolHandle :=
  match cfg with
  | .genie g => ⟨toolName g.name, fun question => genieInvoke g question⟩
  | .served a => ⟨toolName a.name, fun task => servedInvoke a task⟩

/-- Embedding of `build_domain_tools` (source lines 123-212): the UC
function tools of every in-code descriptor (through the abstracted
toolkit `ucTools`), followed by one delegation tool per external
descriptor, in order. -/
def build_domain_tools (ucTools : List String → List ToolHandle)
    (genieInvoke : Genie → String → String)
    (servedInvoke : ServedSubAgent → String → String)
    (externals : List ExternalAgent)
    (inCode : List InCodeSubAgent) : List ToolHandle :=
  (inCode.flatMap (fun cfg => ucTools cfg.tools))
    ++ externals.map (delegation_tool genieInvoke servedInvoke)

/-! ## Derived observations and concrete scenarios used by the claims -/

/-- The last assistant message, scanning the message list in reverse as
`format_final_response` does. -/
def lastAiMsg (messages : List Msg) : Option Msg :=
  messages.reverse.find? (fun m => m.type == "ai")

/-- A one-event invocation whose assistant message carries both text
content and a tool call. -/
def c1Stream : List UpdateEvent :=
  [⟨"supervisor", ⟨[⟨"ai", "hello", some "m1", [⟨"call1", "toolA", "null"⟩], ""⟩], []⟩⟩]

/-- The supervisor update event of the two-node outer graph. -/
def supEventOf (msgs : List Msg) (files : List (String × String)) : UpdateEvent :=
  ⟨"supervisor", ⟨msgs, files⟩⟩

/-- The formatter update event: the same message list after
`format_final_response` mutated the final assistant message in place
(the formatter node returns only the message channel). -/
def formatterEventOf (msgs : List Msg) : UpdateEvent :=
  ⟨"formatter", ⟨format_final_response msgs, []⟩⟩

/-- A final assistant message with the given (pre-formatter) content. -/
def finalAiMsg (pre : String) : Msg :=
  ⟨"ai", pre, some "mfinal", [], ""⟩

/-- Input on which removing one matched sentence splices the
surrounding text into a fresh match of the first pattern. -/
def c3ExInput : String := "ISaved to a.b have saved x to c.d"

/-- A two-event stream used to exhibit the announcement discipline. -/
def c4ExStream : List UpdateEvent :=
  [⟨"supervisor", ⟨[], []⟩⟩, ⟨"agent", ⟨[], []⟩⟩]

/-- A singleton external-descriptor list used to instantiate the
tool-binding theorem. -/
def c6Externals : List ExternalAgent := [.genie ⟨"sp", "my genie", "genie", "d"⟩]

/-- A concrete Genie invocation function for the instantiation. -/
def c6GenieInvoke : Genie → String → String := fun _ _ => "genie answer"

/-- A concrete served-agent invocation function for the instantiation. -/
def c6ServedInvoke : ServedSubAgent → String → String := fun _ _ => "served answer"

/-- A UC toolkit stub producing no tools. -/
def c6UcTools : List String → List ToolHandle := fun _ => []

/-! ## Helper lemmas -/

/-- A string is the string of its character list. -/
theorem stringMk_data (u : String) : String.mk u.data = u := by
  cases u
  rfl

/-- Replacing a single-character pattern is a character map. -/
theorem replaceList_single (a b : Char) :
    ∀ (fuel : Nat) (s : List Char), s.length < fuel →
      replaceList [a] [b] fuel s = s.map (fun c => if c = a then b else c) := by
  intro fuel
  induction fuel with
  | zero => intro s h; omega
  | succ n ih =>
    intro s h
    match s with
    | [] => rfl
    | c :: cs =>
      by_cases hca : c = a
      · subst hca
        have hpre : ([c] : List Char).isPrefixOf (c :: cs) = true := by
          simp [List.isPrefixOf]
        simp only [replaceList, List.map]
        rw [if_pos ⟨by simp, hpre⟩]
        simp only [List.length_cons, List.length_nil, List.drop_succ_cons,
          List.drop_zero, if_pos rfl]
        rw [ih cs (by simpa using Nat.lt_of_succ_lt_succ h)]
        simp
      · have hpre : ¬ (([a] : List Char).isPrefixOf (c :: cs) = true) := by
          simp [List.isPrefixOf]
          intro hc
          exact hca (by simpa [eq_comm] using hc)
        simp only [replaceList, List.map]
        rw [if_neg (by simp [hpre])]
        rw [ih cs (by simpa using Nat.lt_of_succ_lt_succ h)]
        simp [hca]

/-- The tool-name computation is the character map replacing every
space and hyphen by an underscore. -/
theorem toolName_eq_map (name : String) :
    toolName name = ⟨name.data.map (fun c => if c = ' ' || c = '-' then '_' else c)⟩ := by
  unfold toolName pyReplace
  rw [replaceList_single ' ' '_' (name.data.length + 1) name.data (by omega)]
  have hlen : (List.map (fun c => if c = ' ' then '_' else c) name.data).length
      = name.data.length := by simp
  rw [replaceList_single '-' '_' _ _ (by rw [hlen]; omega)]
  rw [List.map_map]
  congr 1
  apply List.map_congr_left
  intro c _
  by_cases h1 : c = ' '
  · simp [h1, Function.comp]
  · by_cases h2 : c = '-' <;> simp [h1, h2, Function.comp]

/-- C5 (counterexample): the delegation-tool name is not the display
name with all whitespace normalized to underscores: on the display name
with an embedded tab, the code leaves the tab in place while the
normalization the spec describes replaces it. -/
theorem C5_counterexample :
    toolName "a\tb" = "a\tb" ∧ specNormalizeName "a\tb" = "a_b"
      ∧ toolName "a\tb" ≠ specNormalizeName "a\tb" := by
  refine ⟨by decide, by decide, by decide⟩

/-- C5 (amended): the externally visible name of every generated
delegation tool is the descriptor display name with every space
character and every hyphen replaced by an underscore (other whitespace
such as tabs is left unchanged); in particular the display names
`Account Lookup` and `Account-Lookup` both yield `Account_Lookup`. -/
theorem C5_space_hyphen_normalization (name : String) :
    toolName name = ⟨name.data.map (fun c => if c = ' ' || c = '-' then '_' else c)⟩
      ∧ toolName "Account Lookup" = "Account_Lookup"
      ∧ toolName "Account-Lookup" = "Account_Lookup" :=
  ⟨toolName_eq_map name, by decide, by decide⟩

/-- C9: cleaning the content string about `report.csv` removes every
occurrence of the file name. -/
theorem C9_report_csv_removed :
    containsSub (remove_file_references "I've saved it to report.csv. Thanks!").data
      ("report.csv".data) = false := by
  decide

/-- The reverse scan of `format_final_response` is the identity when
the scanned list has no assistant message with non-empty content in
first position of its `find?`. -/
theorem fmtRev_id (state : List Msg) :
    ∀ (l : List Msg),
      (∀ m, l.find? (fun m => m.type == "ai") = some m → m.content = "") →
      fmtRev state l = l := by
  intro l
  induction l with
  | nil => intro _; rfl
  | cons m rest ih =>
    intro h
    by_cases hm : m.type = "ai"
    · have hfind : (m :: rest).find? (fun m => m.type == "ai") = some m := by
        simp [List.find?, hm]
      have hc : m.content = "" := h m hfind
      simp [fmtRev, hm, hc]
    · have hfind : ∀ x, rest.find? (fun m => m.type == "ai") = some x →
          x.content = "" := by
        intro x hx
        apply h
        rw [List.find?_cons_of_neg _ (by simp [hm])]
        exact hx
      simp [fmtRev, hm, ih hfind]

/-- C10: when the message list has no assistant message, or the last
assistant message has empty content, the formatter node returns every
message unchanged. -/
theorem C10_formatter_noop (messages : List Msg)
    (h : ∀ m, lastAiMsg messages = some m → m.content = "") :
    format_final_response messages = messages := by
  unfold format_final_response
  rw [fmtRev_id messages messages.reverse h]
  exact List.reverse_reverse messages

/-- C10 witness: a list with a single user message is untouched. -/
theorem C10_witness :
    format_final_response [⟨"human", "hi", some "u1", [], ""⟩]
      = [⟨"human", "hi", some "u1", [], ""⟩] :=
  C10_formatter_noop _ (fun m hm => by simp [lastAiMsg, List.find?] at hm)

/-- C8 (counterexample): when the request custom inputs already bind
the key `files`, that binding is not contained in the custom outputs:
the dictionary merge overrides it with the virtual-file mapping. -/
theorem C8_counterexample :
    ("files", Val.str "x") ∈ ([("files", Val.str "x")] : List (String × Val))
      ∧ ("files", Val.str "x") ∉ (predict [("files", Val.str "x")] []).custom_outputs := by
  constructor
  · decide
  · intro hmem
    simp [predict, dictUpdate, predictFiles, predict_stream, runEventsAux,
      streamItems] at hmem

/-- C8 (amended): the custom-outputs mapping of `predict` contains
exactly the custom-input bindings whose key differs from `files`, plus
the key `files` bound to the virtual-file mapping of the last retained
event state; when no event state was retained the mapping is empty. -/
theorem C8_custom_outputs_amended (ci : List (String × Val))
    (stream : List UpdateEvent) (k : String) (v : Val) (hk : k ≠ "files") :
    (((k, v) ∈ (predict ci stream).custom_outputs) ↔ (k, v) ∈ ci)
      ∧ ("files", Val.filesMap (predictFiles stream)) ∈ (predict ci stream).custom_outputs
      ∧ predictFiles [] = [] := by
  refine ⟨?_, ?_, rfl⟩
  · simp [predict, dictUpdate, List.mem_filter, hk]
  · simp [predict, dictUpdate]

/-- C8 witness: instantiation at a singleton custom-input dictionary
and the empty stream. -/
theorem C8_witness :
    (("a" : String) ≠ "files")
      ∧ ((((("a" : String), Val.str "b") ∈
            (predict [("a", Val.str "b")] []).custom_outputs) ↔
          (("a" : String), Val.str "b") ∈ ([(("a" : String), Val.str "b")] : List (String × Val)))
        ∧ ("files", Val.filesMap (predictFiles [])) ∈ (predict [("a", Val.str "b")] []).custom_outputs
        ∧ predictFiles [] = []) :=
  ⟨by decide, C8_custom_outputs_amended [("a", Val.str "b")] [] "a" (Val.str "b") (by decide)⟩

/-- C1 (counterexample): one invocation whose single event carries an
assistant message with text content and one tool call emits two output
items derived from the same source message identifier `m1` (the text
item and the function-call item), refuting the at-most-one-item claim. -/
theorem C1_counterexample :
    (streamItems c1Stream).map Item.itemId = [some "m1", some "m1"]
      ∧ ¬ ((streamItems c1Stream).countP (fun it => it.itemId == some "m1") ≤ 1) := by
  constructor
  · decide
  · decide

/-- Joint invariant of the inner message loop: the translated ids are
duplicate-free, none of them was already seen, all of them end up in
the extended seen set, and the seen set only grows. -/
theorem procMsgs_props :
    ∀ (ms : List Msg) (seen : List (Option String)),
      ((procMsgs seen ms).2.1.Nodup)
        ∧ (∀ x ∈ (procMsgs seen ms).2.1, x ∉ seen)
        ∧ (∀ x ∈ (procMsgs seen ms).2.1, x ∈ (procMsgs seen ms).1)
        ∧ (∀ x ∈ seen, x ∈ (procMsgs seen ms).1) := by
  intro ms
  induction ms with
  | nil => intro seen; simp [procMsgs]
  | cons m ms ih =>
    intro seen
    by_cases h : m.id ∈ seen
    · simpa [procMsgs, h] using ih seen
    · have ihh := ih (m.id :: seen)
      simp only [procMsgs, if_neg h]
      refine ⟨?_, ?_, ?_, ?_⟩
      · refine List.nodup_cons.mpr ⟨?_, ihh.1⟩
        intro hmem
        exact (ihh.2.1 _ hmem) (List.mem_cons_self _ _)
      · intro x hx
        rcases List.mem_cons.mp hx with rfl | hx'
        · exact h
        · intro hxseen
          exact (ihh.2.1 x hx') (List.mem_cons_of_mem _ hxseen)
      · intro x hx
        rcases List.mem_cons.mp hx with rfl | hx'
        · exact ihh.2.2.2 _ (List.mem_cons_self _ _)
        · exact ihh.2.2.1 x hx'
      · intro x hxseen
        exact ihh.2.2.2 x (List.mem_cons_of_mem _ hxseen)

/-- Joint invariant of the event loop, lifted from `procMsgs_props`. -/
theorem runEventsAux_processed :
    ∀ (evs : List UpdateEvent) (first : Bool) (seen : List (Option String))
      (fs : Option NodeData),
      ((runEventsAux first seen fs evs).processed.Nodup)
        ∧ (∀ x ∈ (runEventsAux first seen fs evs).processed, x ∉ seen)
        ∧ (∀ x ∈ (runEventsAux first seen fs evs).processed,
            x ∈ (runEventsAux first seen fs evs).seen)
        ∧ (∀ x ∈ seen, x ∈ (runEventsAux first seen fs evs).seen) := by
  intro evs
  induction evs with
  | nil => intro first seen fs; simp [runEventsAux]
  | cons ev rest ih =>
    intro first seen fs
    have hp := procMsgs_props ev.data.messages seen
    have ihh := ih false (procMsgs seen ev.data.messages).1 (some ev.data)
    simp only [runEventsAux]
    refine ⟨?_, ?_, ?_, ?_⟩
    · refine List.Nodup.append hp.1 ihh.1 ?_
      intro x hx hx'
      exact (ihh.2.1 x hx') (hp.2.2.1 x hx)
    · intro x hx
      rcases List.mem_append.mp hx with hx' | hx'
      · exact hp.2.1 x hx'
      · intro hxseen
        exact (ihh.2.1 x hx') (hp.2.2.2 x hxseen)
    · intro x hx
      rcases List.mem_append.mp hx with hx' | hx'
      · exact ihh.2.2.2 x (hp.2.2.1 x hx')
      · exact ihh.2.2.1 x hx'
    · intro x hxseen
      exact ihh.2.2.2 x (hp.2.2.2 x hxseen)

/-- C1 (amended): within one invocation the adapter never translates
the same source message identifier twice: the sequence of message
identifiers admitted past the seen-set check is duplicate-free, so each
message is surfaced at most once (a single surfaced message may still
yield several output items, such as a text item plus one function-call
item per tool call). -/
theorem C1_no_duplicate_translation (stream : List UpdateEvent) :
    ((predict_stream stream).processed).Nodup :=
  (runEventsAux_processed stream true [] none).1

/-- C6: each generated delegation tool is bound to the agent built from
its own descriptor: the tool at offset `i` among the delegation tools
is exactly the delegation tool of the `i`-th external descriptor, and
invoking a delegation tool forwards the task to the invocation function
of its own descriptor. -/
theorem C6_tool_binds_own_descriptor (ucTools : List String → List ToolHandle)
    (genieInvoke : Genie → String → String)
    (servedInvoke : ServedSubAgent → String → String)
    (externals : List ExternalAgent) (inCode : List InCodeSubAgent)
    (i : Nat) (h : i < externals.length)
    (g : Genie) (a : ServedSubAgent) (q t : String) :
    ((build_domain_tools ucTools genieInvoke servedInvoke externals inCode)[(inCode.flatMap (fun cfg => ucTools cfg.tools)).length + i]?
        = some (delegation_tool genieInvoke servedInvoke (externals.get ⟨i, h⟩)))
      ∧ (delegation_tool genieInvoke servedInvoke (.genie g)).run q = genieInvoke g q
      ∧ (delegation_tool genieInvoke servedInvoke (.served a)).run t = servedInvoke a t := by
  refine ⟨?_, rfl, rfl⟩
  unfold build_domain_tools
  rw [List.getElem?_append_right (by omega)]
  simp only [Nat.add_sub_cancel_left, List.getElem?_map]
  rw [List.getElem?_eq_getElem h]
  simp

/-- C6 witness: a single Genie descriptor, no UC tools. -/
theorem C6_witness :
    (0 < c6Externals.length)
      ∧ (((build_domain_tools c6UcTools c6GenieInvoke c6ServedInvoke c6Externals [])[(([] : List InCodeSubAgent).flatMap (fun cfg => c6UcTools cfg.tools)).length + 0]?
            = some (delegation_tool c6GenieInvoke c6ServedInvoke (c6Externals.get ⟨0, by decide⟩)))
          ∧ (delegation_tool c6GenieInvoke c6ServedInvoke (.genie ⟨"sp", "my genie", "genie", "d"⟩)).run "q"
              = c6GenieInvoke ⟨"sp", "my genie", "genie", "d"⟩ "q"
          ∧ (delegation_tool c6GenieInvoke c6ServedInvoke (.served ⟨"ep", "n", "t", "d"⟩)).run "t"
              = c6ServedInvoke ⟨"ep", "n", "t", "d"⟩ "t") :=
  ⟨by decide,
   C6_tool_binds_own_descriptor c6UcTools c6GenieInvoke c6ServedInvoke
     c6Externals [] 0 (by decide)
     ⟨"sp", "my genie", "genie", "d"⟩ ⟨"ep", "n", "t", "d"⟩ "q" "t"⟩

/-- The announcement yielded for the event at index `i`, for an
arbitrary state of the `first_name` flag. -/
theorem runEventsAux_announce :
    ∀ (evs : List UpdateEvent) (first : Bool) (seen : List (Option String))
      (fs : Option NodeData) (i : Nat) (ev : UpdateEvent),
      evs[i]? = some ev →
      ((runEventsAux first seen fs evs).outs[i]?).map EventOut.announce
        = some (if (first = false ∨ i ≠ 0) ∧ ev.node ≠ "formatter"
                then [nameItem ev.node] else []) := by
  intro evs
  induction evs with
  | nil => intro first seen fs i ev hi; simp at hi
  | cons e rest ih =>
    intro first seen fs i ev hi
    cases i with
    | zero =>
      simp only [List.getElem?_cons_zero, Option.some.injEq] at hi
      subst hi
      simp only [runEventsAux, List.getElem?_cons_zero, Option.map_some']
      congr 1
      by_cases hnode : e.node = "formatter"
      · simp [hnode]
      · by_cases hfirst : first = false
        · simp [hnode, hfirst]
        · rw [if_neg (by simp [hfirst]), if_neg (by simp [hfirst])]
    | succ j =>
      simp only [List.getElem?_cons_succ] at hi
      have hrec := ih false (procMsgs seen e.data.messages).1 (some e.data) j ev hi
      simp only [runEventsAux, List.getElem?_cons_succ]
      rw [hrec]
      congr 1
      by_cases hnode : ev.node = "formatter"
      · simp [hnode]
      · simp [hnode]

/-- C4: a node-name announcement is yielded for an event exactly when
the event is not the first of the invocation and does not originate
from the formatter node; for the first event or a formatter event the
announcement part is empty. -/
theorem C4_announcement_iff (stream : List UpdateEvent) (i : Nat)
    (ev : UpdateEvent) (h : stream[i]? = some ev) :
    ((predict_stream stream).outs[i]?).map EventOut.announce
      = some (if i ≠ 0 ∧ ev.node ≠ "formatter" then [nameItem ev.node] else []) := by
  have hrec := runEventsAux_announce stream true [] none i ev h
  unfold predict_stream
  rw [hrec]
  congr 1
  by_cases hi : i = 0
  · simp [hi]
  · simp [hi]

/-- C4 witness: on a two-event stream the second event (a
non-formatter node) is announced. -/
theorem C4_witness :
    (c4ExStream[1]? = some (⟨"agent", ⟨[], []⟩⟩ : UpdateEvent))
      ∧ ((predict_stream c4ExStream).outs[1]?).map EventOut.announce
          = some (if 1 ≠ 0 ∧ (⟨"agent", ⟨[], []⟩⟩ : UpdateEvent).node ≠ "formatter"
                  then [nameItem (⟨"agent", ⟨[], []⟩⟩ : UpdateEvent).node] else []) :=
  ⟨rfl, C4_announcement_iff c4ExStream 1 ⟨"agent", ⟨[], []⟩⟩ rfl⟩

/-- When every message id of the list is already seen, the inner loop
yields nothing and leaves the seen set unchanged. -/
theorem procMsgs_all_seen :
    ∀ (ms : List Msg) (seen : List (Option String)),
      (∀ m ∈ ms, m.id ∈ seen) → procMsgs seen ms = (seen, [], []) := by
  intro ms
  induction ms with
  | nil => intro seen _; rfl
  | cons m rest ih =>
    intro seen h
    have hm : m.id ∈ seen := h m (List.mem_cons_self _ _)
    simp only [procMsgs, if_pos hm]
    exact ih seen (fun x hx => h x (List.mem_cons_of_mem _ hx))

/-- Every processed message id lands in the extended seen set. -/
theorem procMsgs_ids_sub :
    ∀ (ms : List Msg) (seen : List (Option String)) (m : Msg),
      m ∈ ms → m.id ∈ (procMsgs seen ms).1 := by
  intro ms
  induction ms with
  | nil => intro seen m hm; simp at hm
  | cons m0 rest ih =>
    intro seen m hm
    by_cases h0 : m0.id ∈ seen
    · simp only [procMsgs, if_pos h0]
      rcases List.mem_cons.mp hm with rfl | hm'
      · exact (procMsgs_props rest seen).2.2.2 _ h0
      · exact ih seen m hm'
    · simp only [procMsgs, if_neg h0]
      rcases List.mem_cons.mp hm with rfl | hm'
      · exact (procMsgs_props rest (m.id :: seen)).2.2.2 _ (List.mem_cons_self _ _)
      · exact ih (m0.id :: seen) m hm'

/-- The reverse scan of the formatter preserves the message ids. -/
theorem fmtRev_map_id (state : List Msg) :
    ∀ (l : List Msg), (fmtRev state l).map Msg.id = l.map Msg.id := by
  intro l
  induction l with
  | nil => rfl
  | cons m rest ih =>
    by_cases hm : m.type = "ai"
    · by_cases hc : m.content ≠ "" <;> simp [fmtRev, hm, hc]
    · simp [fmtRev, hm, ih]

/-- The formatter preserves the message ids of the state. -/
theorem format_preserves_ids (msgs : List Msg) :
    (format_final_response msgs).map Msg.id = msgs.map Msg.id := by
  unfold format_final_response
  rw [List.map_reverse, fmtRev_map_id, List.map_reverse, List.reverse_reverse]

/-- C2: the supervisor update precedes the formatter update and carries
the final assistant message, so the stream of output items is exactly
the stream produced by the supervisor event alone: the formatter event
(whose messages are the in-place cleaned ones, with unchanged ids)
contributes nothing, and the surfaced text item carries the original
pre-formatter content. -/
theorem C2_formatter_output_suppressed (msgs : List Msg)
    (files : List (String × String)) (pre : String) (h : pre ≠ "") :
    (streamItems [supEventOf msgs files, formatterEventOf msgs]
        = streamItems [supEventOf msgs files])
      ∧ streamItems [supEventOf [finalAiMsg pre] files, formatterEventOf [finalAiMsg pre]]
          = [Item.text pre (some "mfinal")] := by
  have key : ∀ (ms : List Msg) (fl : List (String × String)),
      streamItems [supEventOf ms fl, formatterEventOf ms]
        = streamItems [supEventOf ms fl] := by
    intro ms fl
    have hall : ∀ m ∈ format_final_response ms,
        m.id ∈ (procMsgs [] ms).1 := by
      intro m hm
      have hid : m.id ∈ (format_final_response ms).map Msg.id :=
        List.mem_map_of_mem _ hm
      rw [format_preserves_ids] at hid
      rcases List.mem_map.mp hid with ⟨m0, hm0, hid0⟩
      rw [← hid0]
      exact procMsgs_ids_sub ms [] m0 hm0
    simp only [streamItems, predict_stream, runEventsAux, supEventOf,
      formatterEventOf]
    rw [procMsgs_all_seen (format_final_response ms) (procMsgs [] ms).1 hall]
    simp
  refine ⟨key msgs files, ?_⟩
  rw [key [finalAiMsg pre] files]
  simp only [streamItems, predict_stream, runEventsAux, supEventOf,
    procMsgs, langchain_to_responses, finalAiMsg]
  simp [h]

/-- C2 witness: instantiation at a concrete supervisor state and the
content string `hello`. -/
theorem C2_witness :
    (("hello" : String) ≠ "")
      ∧ ((streamItems [supEventOf [finalAiMsg "hello"] [], formatterEventOf [finalAiMsg "hello"]]
            = streamItems [supEventOf [finalAiMsg "hello"] []])
        ∧ streamItems [supEventOf [finalAiMsg "hello"] [], formatterEventOf [finalAiMsg "hello"]]
            = [Item.text "hello" (some "mfinal")]) :=
  ⟨by decide, C2_formatter_output_suppressed [finalAiMsg "hello"] [] "hello" (by decide)⟩

/-- A substitution whose pattern matches nowhere in the string is the
identity, for any amount of fuel. -/
theorem noMatch_subAllAux (ci : Bool) (r : RE) (rep : List Char) :
    ∀ (fuel : Nat) (s : List Char),
      hasMatchFrom ci r s = false → subAllAux ci r rep fuel s = s := by
  intro fuel
  induction fuel with
  | zero => intro s _; rfl
  | succ n ih =>
    intro s hs
    match s with
    | [] =>
      have hnone : tryMatch ci r [] = none := by
        have : (tryMatch ci r []).isSome = false := by
          simpa [hasMatchFrom] using hs
        exact Option.not_isSome_iff_eq_none.mp (by simp [this])
      simp [subAllAux, hnone]
    | c :: cs =>
      have hsplit := hs
      simp only [hasMatchFrom, Bool.or_eq_false_iff] at hsplit
      have hnone : tryMatch ci r (c :: cs) = none :=
        Option.not_isSome_iff_eq_none.mp (by simp [hsplit.1])
      simp only [subAllAux, hnone]
      rw [ih cs hsplit.2]

/-- String-level form of `noMatch_subAllAux`. -/
theorem noMatch_subAll (ci : Bool) (r : RE) (rep : List Char) (s : List Char)
    (h : hasMatchFrom ci r s = false) : subAll ci r rep s = s :=
  noMatch_subAllAux ci r rep (s.length + 1) s h

/-- The whole pattern pass is the identity when no pattern matches. -/
theorem applyPatterns_noMatch (l : List Char)
    (h : ∀ p ∈ patterns, hasMatchFrom true p l = false) :
    applyPatterns l = l := by
  unfold applyPatterns
  have : ∀ (ps : List RE), (∀ p ∈ ps, hasMatchFrom true p l = false) →
      ps.foldl (fun acc p => subAll true p [] acc) l = l := by
    intro ps
    induction ps with
    | nil => intro _; rfl
    | cons p rest ih =>
      intro hps
      simp only [List.foldl_cons]
      rw [noMatch_subAll true p [] l (hps p (List.mem_cons_self _ _))]
      exact ih (fun q hq => hps q (List.mem_cons_of_mem _ hq))
  exact this patterns h

/-- C7: on a string in which none of the fifteen file-operation
patterns matches, `remove_file_references` only performs the
whitespace normalization: blank-line collapsing followed by stripping. -/
theorem C7_no_match_whitespace_normalization (s : String)
    (h : (patterns.all (fun p => !(hasMatchFrom true p s.data))) = true) :
    remove_file_references s = whitespace_normalize s := by
  by_cases hs : s = ""
  · subst hs
    simp only [remove_file_references, if_pos rfl]
    decide
  · have hall : ∀ p ∈ patterns, hasMatchFrom true p s.data = false := by
      intro p hp
      have := List.all_eq_true.mp h p hp
      simpa using this
    simp only [remove_file_references, if_neg hs, whitespace_normalize]
    rw [applyPatterns_noMatch s.data hall]

/-- C7 witness: a plain greeting is returned unchanged up to
whitespace normalization. -/
theorem C7_witness :
    ((patterns.all (fun p => !(hasMatchFrom true p ("Hello world").data))) = true)
      ∧ remove_file_references "Hello world" = whitespace_normalize "Hello world" :=
  ⟨by decide, C7_no_match_whitespace_normalization "Hello world" (by decide)⟩

/-- Dropping a satisfied prefix twice is the same as dropping it once. -/
theorem dropWhile_self (p : Char → Bool) :
    ∀ (l : List Char), List.dropWhile p (List.dropWhile p l) = List.dropWhile p l := by
  intro l
  induction l with
  | nil => rfl
  | cons a t ih =>
    by_cases h : p a
    · simp [List.dropWhile_cons, h, ih]
    · simp [List.dropWhile_cons, h]

/-- `dropWhile` commutes with appending an unsatisfying last element. -/
theorem dropWhile_append_last (p : Char → Bool) (a : Char) (h : p a = false) :
    ∀ (xs : List Char), List.dropWhile p (xs ++ [a]) = List.dropWhile p xs ++ [a] := by
  intro xs
  induction xs with
  | nil => simp [List.dropWhile_cons, h]
  | cons x t ih =>
    by_cases hx : p x
    · simp [List.dropWhile_cons, hx, ih]
    · simp [List.dropWhile_cons, hx]

/-- The head surviving a `dropWhile` does not satisfy the predicate. -/
theorem dropWhile_head_false (p : Char → Bool) :
    ∀ (l : List Char) (a : Char) (t : List Char),
      List.dropWhile p l = a :: t → p a = false := by
  intro l
  induction l with
  | nil => intro a t h; simp at h
  | cons x xs ih =>
    intro a t h
    by_cases hx : p x
    · rw [List.dropWhile_cons, if_pos hx] at h
      exact ih a t h
    · rw [List.dropWhile_cons, if_neg hx] at h
      injection h with h1 _
      rw [← h1]
      simpa using hx

/-- Stripping is idempotent. -/
theorem pyStrip_pyStrip (l : List Char) : pyStrip (pyStrip l) = pyStrip l := by
  cases hu : List.dropWhile isPySpace l with
  | nil =>
    have hl : pyStrip l = [] := by simp [pyStrip, hu]
    rw [hl]
    rfl
  | cons a u' =>
    have ha : isPySpace a = false := dropWhile_head_false isPySpace l a u' hu
    have ht : pyStrip l = a :: List.reverse (List.dropWhile isPySpace u'.reverse) := by
      unfold pyStrip
      rw [hu, List.reverse_cons, dropWhile_append_last isPySpace a ha,
        List.reverse_append]
      simp
    rw [ht]
    unfold pyStrip
    rw [List.dropWhile_cons, if_neg (by simp [ha]), List.reverse_cons,
      List.reverse_reverse, dropWhile_append_last isPySpace a ha,
      dropWhile_self, List.reverse_append]
    simp

/-- C3 (counterexample): `remove_file_references` is not idempotent.
On `c3ExInput` the first pass removes the `Saved to a.b` sentence and
thereby splices the surrounding text into `I have saved x to c.d`, a
fresh match of the first pattern, which the second pass removes. -/
theorem C3_counterexample :
    remove_file_references c3ExInput = "I have saved x to c.d"
      ∧ remove_file_references (remove_file_references c3ExInput) = ""
      ∧ remove_file_references (remove_file_references c3ExInput)
          ≠ remove_file_references c3ExInput := by
  refine ⟨by decide, by decide, by decide⟩

/-- C3 (amended): `remove_file_references` is idempotent on every
input whose once-cleaned output contains no occurrence of any of the
fifteen file-operation patterns and no occurrence of the blank-line
collapsing pattern (in general it is not idempotent: removing one
matched sentence can splice the surrounding text into a new match). -/
theorem C3_idempotent_on_stable_outputs (s : String)
    (h1 : (patterns.all
        (fun p => !(hasMatchFrom true p (remove_file_references s).data))) = true)
    (h2 : hasMatchFrom false collapseRE (remove_file_references s).data = false) :
    remove_file_references (remove_file_references s) = remove_file_references s := by
  by_cases ht : remove_file_references s = ""
  · rw [ht]
    decide
  · have hs : s ≠ "" := by
      intro hs0
      apply ht
      rw [hs0]
      rfl
    have hall : ∀ p ∈ patterns,
        hasMatchFrom true p (remove_file_references s).data = false := by
      intro p hp
      simpa using List.all_eq_true.mp h1 p hp
    have hdata : (remove_file_references s).data
        = pyStrip (collapseBlankLines (applyPatterns s.data)) := by
      rw [remove_file_references, if_neg hs]
    calc remove_file_references (remove_file_references s)
        = ⟨pyStrip (collapseBlankLines (applyPatterns (remove_file_references s).data))⟩ := by
          conv_lhs => rw [remove_file_references]
          rw [if_neg ht]
      _ = ⟨pyStrip (remove_file_references s).data⟩ := by
          rw [applyPatterns_noMatch _ hall]
          unfold collapseBlankLines
          rw [noMatch_subAll false collapseRE _ _ h2]
      _ = ⟨(remove_file_references s).data⟩ := by
          rw [hdata, pyStrip_pyStrip]
      _ = remove_file_references s := stringMk_data _

/-- C3 witness: a plain greeting is a stable input. -/
theorem C3_witness :
    ((patterns.all
        (fun p => !(hasMatchFrom true p (remove_file_references "Hello").data))) = true)
      ∧ (hasMatchFrom false collapseRE (remove_file_references "Hello").data = false)
      ∧ remove_file_references (remove_file_references "Hello") = remove_file_references "Hello" :=
  ⟨by decide, by decide, C3_idempotent_on_stable_outputs "Hello" (by decide) (by decide)⟩

end Logfood
